import Mathlib

/-!
Verification of the winfsp metadata cache (`src/sys/meta.c`).

The cache stores opaque byte blobs keyed by a monotonically minted 64-bit
handle (`ItemIndex`).  Entries live in a page of hash buckets (singly linked
chains) and an insertion-ordered doubly linked list; each entry owns a
self-describing blob buffer and a detached reference count.

Shallow embedding choices:
* Allocated memory is modelled by an explicit `Heap`: a monotone allocation
  counter plus an association list from allocation ids to item records.
  `FspAllocNonPaged`/`FspAlloc`/`FspFree` become `Heap.alloc`/`Heap.free`.
  Fallibility of the allocators is an explicit boolean input of `MetaCacheAddItem`.
* `FSP_META_CACHE_ITEM` and its uniquely owned `FSP_META_CACHE_ITEM_BUFFER`
  are one heap record (the code allocates them as a pair in `MetaCacheAddItem`
  and frees them together in `MetaCacheDereferenceItem`); the buffer's
  `Item` backpointer is therefore the record's own heap id, and a borrowed
  payload pointer is modelled by that heap id.
* The `LIST_ENTRY` ring becomes a `List` of heap ids (head = `Flink` = oldest);
  the bucket array becomes a `List (List Nat)` of chains; `InsertTailList`
  is append, chain prepend is cons, and the in-place unlink loops become
  first-occurrence removal functions.
* `UINT64` arithmetic that can wrap is taken modulo `2 ^ 64`
  (`ExpirationTime`), and the `(UINT64)-1LL` wraparound test on the handle
  allocator is an explicit comparison with `2 ^ 64 - 1`, exactly as in C.
* The `for (;;)` sweep loop of `MetaCacheInvalidateItems` removes the list
  head on every iteration, so its iteration count is bounded by the length
  of the item list; the embedding runs the loop body with that length as
  structural fuel, which reproduces the loop exactly.
-/

namespace WinFspMetaCache

/-- `sizeof(FSP_META_CACHE_ITEM_BUFFER)`: the `Item` backpointer and `Size`
field, padded so that the flexible `Buffer` member is aligned to
`MEMORY_ALLOCATION_ALIGNMENT` (16 bytes on x64). -/
def ItemBufferHeaderSize : Nat := 16

/-- `(UINT64)-1LL`: the maximum unsigned 64-bit value, used both as the
handle-allocator wraparound sentinel and as the drain threshold. -/
def UINT64_MAX : Nat := 2 ^ 64 - 1

/-- `FSP_META_CACHE_ITEM` merged with its uniquely owned
`FSP_META_CACHE_ITEM_BUFFER` (`Size`, payload `Buffer`); the two C records
are allocated by the same `MetaCacheAddItem` call and freed together by
`MetaCacheDereferenceItem`.  The intrusive `ListEntry`/`DictNext` links are
represented by membership of the record's heap id in the cache's list and
bucket chains. -/
structure FSP_META_CACHE_ITEM where
  ItemIndex : Nat
  ExpirationTime : Nat
  RefCount : Int
  Size : Nat
  Buffer : List Nat
  deriving DecidableEq, Repr

/-- The allocator: `next` is the next fresh allocation id, `items` maps the
ids of currently allocated records to their contents. -/
structure Heap where
  next : Nat
  items : List (Nat × FSP_META_CACHE_ITEM)
  deriving DecidableEq, Repr

/-- Dereference an allocation id. -/
def Heap.get (h : Heap) (id : Nat) : Option FSP_META_CACHE_ITEM :=
  (h.items.find? fun p => p.1 == id).map Prod.snd

/-- Allocate a fresh record (`FspAllocNonPaged`/`FspAlloc` succeeding). -/
def Heap.alloc (h : Heap) (it : FSP_META_CACHE_ITEM) : Nat × Heap :=
  (h.next, ⟨h.next + 1, (h.next, it) :: h.items⟩)

/-- `FspFree`. -/
def Heap.free (h : Heap) (id : Nat) : Heap :=
  ⟨h.next, h.items.filter fun p => p.1 != id⟩

/-- In-place update of an allocated record (a store through a pointer). -/
def Heap.set (h : Heap) (id : Nat) (it : FSP_META_CACHE_ITEM) : Heap :=
  ⟨h.next, h.items.map fun p => if p.1 = id then (id, it) else p⟩

/-- The heap invariant: allocated ids are below the allocation counter and
are pairwise distinct. -/
def Heap.Wf (h : Heap) : Prop :=
  (∀ p ∈ h.items, p.1 < h.next) ∧ (h.items.map Prod.fst).Nodup

/-- `FSP_META_CACHE`: tuning parameters, the handle allocator state
`ItemIndex`, the live-entry count, the insertion-ordered item list (head =
oldest) and the bucket array of singly linked chains, all storing heap ids. -/
structure FSP_META_CACHE where
  MetaCapacity : Nat
  ItemSizeMax : Nat
  MetaTimeout : Nat
  ItemBucketCount : Nat
  ItemIndex : Nat
  ItemCount : Nat
  ItemList : List Nat
  ItemBuckets : List (List Nat)
  deriving DecidableEq, Repr

/-- `MetaCache->ItemBuckets[i]`, the chain headed at bucket `i`. -/
def FSP_META_CACHE.bucket (c : FSP_META_CACHE) (i : Nat) : List Nat :=
  c.ItemBuckets.getD i []

/-- The zeroed cache produced by `MetaCacheCreate` (the page is zeroed, the
list initialized empty, the three tuning parameters and the bucket count
stored). -/
def MetaCacheCreate (MetaCapacity ItemSizeMax MetaTimeout BucketCount : Nat) :
    FSP_META_CACHE :=
  { MetaCapacity := MetaCapacity
    ItemSizeMax := ItemSizeMax
    MetaTimeout := MetaTimeout
    ItemBucketCount := BucketCount
    ItemIndex := 0
    ItemCount := 0
    ItemList := []
    ItemBuckets := List.replicate BucketCount [] }

/-- `MetaCacheDereferenceItem`: `InterlockedDecrement` of `RefCount`; if the
new value is zero, free the item buffer and the item. -/
def MetaCacheDereferenceItem (h : Heap) (id : Nat) : Heap :=
  match h.get id with
  | none => h
  | some it =>
    let RefCount := it.RefCount - 1
    if RefCount = 0 then h.free id
    else h.set id { it with RefCount := RefCount }

/-- The bucket-chain unlink loop of `MetaCacheInvalidateItems`
(`for (P = &bucket; *P; P = &(*P)->DictNext) if (*P == Item) { *P = (*P)->DictNext; break; }`):
remove the first occurrence of the given pointer, if any.  Also models
`RemoveEntryList` on the id list. -/
def removeFirst (id : Nat) : List Nat → List Nat
  | [] => []
  | x :: xs => if x = id then xs else x :: removeFirst id xs

/-- The bucket-chain scan of `MetaCacheReferenceItemBuffer`: walk `DictNext`
links and return the first item whose `ItemIndex` matches, together with
its id. -/
def chainFind (h : Heap) (idx : Nat) :
    List Nat → Option (Nat × FSP_META_CACHE_ITEM)
  | [] => none
  | x :: xs =>
    match h.get x with
    | some it => if it.ItemIndex = idx then some (x, it) else chainFind h idx xs
    | none => chainFind h idx xs

/-- The scan-and-unlink loop of `MetaCacheInvalidateItem`: find the first
chain element whose `ItemIndex` matches, unlink it, and return it together
with the updated chain. -/
def chainRemove (h : Heap) (idx : Nat) : List Nat → Option Nat × List Nat
  | [] => (none, [])
  | x :: xs =>
    match h.get x with
    | some it =>
      if it.ItemIndex = idx then (some x, xs)
      else
        let r := chainRemove h idx xs
        (r.1, x :: r.2)
    | none =>
      let r := chainRemove h idx xs
      (r.1, x :: r.2)

/-- `MetaCacheAddItem`.  `now` is `KeQueryInterruptTime()`;
`itemAllocOk`/`bufferAllocOk` record whether `FspAllocNonPaged(sizeof *Item)`
and `FspAlloc(sizeof *ItemBuffer + Size)` succeed.  Returns the minted
handle (0 on rejection) with the updated cache and heap. -/
def MetaCacheAddItem (c : FSP_META_CACHE) (h : Heap) (now : Nat)
    (Buffer : List Nat) (Size : Nat) (itemAllocOk bufferAllocOk : Bool) :
    Nat × FSP_META_CACHE × Heap :=
  if ItemBufferHeaderSize + Size > c.ItemSizeMax then (0, c, h)
  else if itemAllocOk = false then (0, c, h)
  else if bufferAllocOk = false then
    -- the Item was allocated and is freed again on the buffer-allocation
    -- failure path: the allocation counter advances, no record remains
    (0, c, { h with next := h.next + 1 })
  else
    -- both allocations succeed: one heap record holds the zeroed Item with
    -- its buffer (backpointer, Size, payload copied from the caller)
    let Item : FSP_META_CACHE_ITEM :=
      { ItemIndex := 0
        ExpirationTime := (now + c.MetaTimeout) % 2 ^ 64
        RefCount := 1
        Size := Size
        Buffer := Buffer.take Size }
    let a := h.alloc Item
    let HasCapacity := c.ItemCount < c.MetaCapacity
    if HasCapacity then
      let ItemIndex := if c.ItemIndex = UINT64_MAX then 1 else c.ItemIndex + 1
      let HashIndex := ItemIndex % c.ItemBucketCount
      let c' : FSP_META_CACHE :=
        { c with
          ItemIndex := ItemIndex
          ItemCount := c.ItemCount + 1
          ItemList := c.ItemList ++ [a.1]
          ItemBuckets := c.ItemBuckets.set HashIndex (a.1 :: c.bucket HashIndex) }
      (ItemIndex, c', a.2.set a.1 { Item with ItemIndex := ItemIndex })
    else
      (0, c, a.2.free a.1)

/-- `MetaCacheReferenceItemBuffer`: scan the bucket for the handle; on a hit
`InterlockedIncrement` the refcount and return the payload pointer (here:
the heap id) and, through `PSize` when it is non-null, the buffer size; on a
miss return null and store 0 through a non-null `PSize`.  `psizeIsNull`
records whether the caller passed a null `PSize`; the middle component is
the value stored through it (`none` when nothing is written). -/
def MetaCacheReferenceItemBuffer (c : FSP_META_CACHE) (h : Heap)
    (ItemIndex : Nat) (psizeIsNull : Bool) :
    Option Nat × Option Nat × Heap :=
  let HashIndex := ItemIndex % c.ItemBucketCount
  match chainFind h ItemIndex (c.bucket HashIndex) with
  | none => (none, if psizeIsNull then none else some 0, h)
  | some r =>
    let h' := h.set r.1 { r.2 with RefCount := r.2.RefCount + 1 }
    (some r.1, if psizeIsNull then none else some r.2.Size, h')

/-- `MetaCacheDereferenceItemBuffer`: step back from the payload pointer to
the buffer header and release the owning item; in the embedding the payload
pointer is the owning record's heap id. -/
def MetaCacheDereferenceItemBuffer (h : Heap) (id : Nat) : Heap :=
  MetaCacheDereferenceItem h id

/-- One iteration of the sweep per unit of fuel: inspect the list head;
if it has expired, unlink it from its bucket chain and from the list,
decrement the count, release the cache's reference outside the lock, and
loop; otherwise stop.  Every iteration removes the head, so fuel equal to
the initial list length runs the C loop to its own exit. -/
def MetaCacheInvalidateItemsAux :
    Nat → FSP_META_CACHE → Heap → Nat → FSP_META_CACHE × Heap
  | 0, c, h, _ => (c, h)
  | fuel + 1, c, h, ExpirationTime =>
    match c.ItemList with
    | [] => (c, h)
    | id :: rest =>
      match h.get id with
      | none => (c, h)
      | some it =>
        if it.ExpirationTime ≤ ExpirationTime then
          let HashIndex := it.ItemIndex % c.ItemBucketCount
          let c' : FSP_META_CACHE :=
            { c with
              ItemBuckets :=
                c.ItemBuckets.set HashIndex (removeFirst id (c.bucket HashIndex))
              ItemList := rest
              ItemCount := c.ItemCount - 1 }
          MetaCacheInvalidateItemsAux fuel c' (MetaCacheDereferenceItem h id)
            ExpirationTime
        else (c, h)

/-- `MetaCacheInvalidateItems`: the expiry-sweep loop. -/
def MetaCacheInvalidateItems (c : FSP_META_CACHE) (h : Heap)
    (ExpirationTime : Nat) : FSP_META_CACHE × Heap :=
  MetaCacheInvalidateItemsAux c.ItemList.length c h ExpirationTime

/-- `MetaCacheInvalidateAll`: the sweep with threshold `(UINT64)-1LL`. -/
def MetaCacheInvalidateAll (c : FSP_META_CACHE) (h : Heap) :
    FSP_META_CACHE × Heap :=
  MetaCacheInvalidateItems c h UINT64_MAX

/-- `MetaCacheInvalidateExpired`: the sweep with threshold
`KeQueryInterruptTime()`. -/
def MetaCacheInvalidateExpired (c : FSP_META_CACHE) (h : Heap) (now : Nat) :
    FSP_META_CACHE × Heap :=
  MetaCacheInvalidateItems c h now

/-- `MetaCacheInvalidateItem`: unlink the handle's entry from its bucket
chain and from the item list, decrement the count, then release the cache's
reference outside the lock. -/
def MetaCacheInvalidateItem (c : FSP_META_CACHE) (h : Heap) (ItemIndex : Nat) :
    FSP_META_CACHE × Heap :=
  let HashIndex := ItemIndex % c.ItemBucketCount
  let r := chainRemove h ItemIndex (c.bucket HashIndex)
  match r.1 with
  | none => (c, h)
  | some id =>
    let c' : FSP_META_CACHE :=
      { c with
        ItemBuckets := c.ItemBuckets.set HashIndex r.2
        ItemList := removeFirst id c.ItemList
        ItemCount := c.ItemCount - 1 }
    (c', MetaCacheDereferenceItem h id)

/-- Sum of the bucket-chain lengths. -/
def bucketsTotal (c : FSP_META_CACHE) : Nat :=
  (c.ItemBuckets.map List.length).sum

/-- The expiration times along the item list. -/
def expList (c : FSP_META_CACHE) (h : Heap) : List Nat :=
  c.ItemList.filterMap fun id =>
    (h.get id).map FSP_META_CACHE_ITEM.ExpirationTime

/-- Structural invariant of a cache state: the bucket array has the declared
positive length; `ItemCount` counts the list; the list and every chain are
duplicate-free; every listed id is allocated, carries a 64-bit expiration
time and sits in the chain of its hash bucket; and every chained id is
listed and hashes to its own bucket. -/
def CacheWf (c : FSP_META_CACHE) (h : Heap) : Prop :=
  0 < c.ItemBucketCount ∧
  c.ItemBuckets.length = c.ItemBucketCount ∧
  c.ItemCount = c.ItemList.length ∧
  c.ItemList.Nodup ∧
  (∀ i < c.ItemBuckets.length, (c.bucket i).Nodup) ∧
  (∀ id ∈ c.ItemList, ∃ it, h.get id = some it ∧
    it.ExpirationTime < 2 ^ 64 ∧
    id ∈ c.bucket (it.ItemIndex % c.ItemBucketCount)) ∧
  (∀ i < c.ItemBuckets.length, ∀ id ∈ c.bucket i,
    id ∈ c.ItemList ∧
    ∀ it, h.get id = some it → it.ItemIndex % c.ItemBucketCount = i)

/-- A well-formed state: heap and cache invariants together. -/
def StateWf (c : FSP_META_CACHE) (h : Heap) : Prop :=
  Heap.Wf h ∧ CacheWf c h

/-! ### Heap lemmas -/

theorem Heap.get_alloc_self (h : Heap) (it : FSP_META_CACHE_ITEM) :
    (h.alloc it).2.get (h.alloc it).1 = some it := by
  simp [Heap.get, Heap.alloc]

theorem Heap.get_alloc_ne (h : Heap) (it : FSP_META_CACHE_ITEM) {id : Nat}
    (hne : id ≠ h.next) : (h.alloc it).2.get id = h.get id := by
  simp only [Heap.get, Heap.alloc]
  rw [List.find?_cons_of_neg]
  simp [Ne.symm hne]

theorem find_replace_self (l : List (Nat × FSP_META_CACHE_ITEM)) (id : Nat)
    (it : FSP_META_CACHE_ITEM) :
    ((l.map fun p => if p.1 = id then (id, it) else p).find? fun p => p.1 == id) =
      (l.find? fun p => p.1 == id).map fun _ => (id, it) := by
  induction l with
  | nil => rfl
  | cons p ps ih =>
    by_cases hp : p.1 = id
    · simp only [List.map_cons, if_pos hp]
      rw [List.find?_cons_of_pos _ (by simp), List.find?_cons_of_pos _ (by simp [hp])]
      rfl
    · simp only [List.map_cons, if_neg hp]
      rw [List.find?_cons_of_neg _ (by simp [hp]), List.find?_cons_of_neg _ (by simp [hp])]
      exact ih

theorem find_replace_ne (l : List (Nat × FSP_META_CACHE_ITEM)) {id j : Nat}
    (it : FSP_META_CACHE_ITEM) (hne : j ≠ id) :
    ((l.map fun p => if p.1 = id then (id, it) else p).find? fun p => p.1 == j) =
      l.find? fun p => p.1 == j := by
  induction l with
  | nil => rfl
  | cons p ps ih =>
    by_cases hp : p.1 = id
    · simp only [List.map_cons, if_pos hp]
      rw [List.find?_cons_of_neg _ (by simp [Ne.symm hne]),
        List.find?_cons_of_neg _ (by simp [hp, Ne.symm hne])]
      exact ih
    · simp only [List.map_cons, if_neg hp]
      by_cases hj : p.1 = j
      · rw [List.find?_cons_of_pos _ (by simp [hj]),
          List.find?_cons_of_pos _ (by simp [hj])]
      · rw [List.find?_cons_of_neg _ (by simp [hj]),
          List.find?_cons_of_neg _ (by simp [hj])]
        exact ih

theorem find_filter_ne (l : List (Nat × FSP_META_CACHE_ITEM)) {id j : Nat}
    (hne : j ≠ id) :
    ((l.filter fun p => p.1 != id).find? fun p => p.1 == j) =
      l.find? fun p => p.1 == j := by
  induction l with
  | nil => rfl
  | cons p ps ih =>
    by_cases hp : p.1 = id
    · rw [List.filter_cons_of_neg (by simp [hp]),
        List.find?_cons_of_neg _ (by simp [hp, Ne.symm hne])]
      exact ih
    · rw [List.filter_cons_of_pos (by simp [hp])]
      by_cases hj : p.1 = j
      · rw [List.find?_cons_of_pos _ (by simp [hj]),
          List.find?_cons_of_pos _ (by simp [hj])]
      · rw [List.find?_cons_of_neg _ (by simp [hj]),
          List.find?_cons_of_neg _ (by simp [hj])]
        exact ih

theorem Heap.get_set_map (h : Heap) (id : Nat) (it : FSP_META_CACHE_ITEM) :
    (h.set id it).get id = (h.get id).map fun _ => it := by
  show (((h.items.map fun p => if p.1 = id then (id, it) else p).find?
      fun p => p.1 == id).map Prod.snd) =
    ((h.items.find? fun p => p.1 == id).map Prod.snd).map fun _ => it
  rw [find_replace_self]
  cases h.items.find? fun p => p.1 == id <;> rfl

theorem Heap.get_set_self (h : Heap) {id : Nat} {it0 : FSP_META_CACHE_ITEM}
    (hget : h.get id = some it0) (it : FSP_META_CACHE_ITEM) :
    (h.set id it).get id = some it := by
  rw [Heap.get_set_map, hget]
  rfl

theorem Heap.get_set_ne (h : Heap) {id j : Nat} (it : FSP_META_CACHE_ITEM)
    (hne : j ≠ id) : (h.set id it).get j = h.get j := by
  show (((h.items.map fun p => if p.1 = id then (id, it) else p).find?
      fun p => p.1 == j).map Prod.snd) = _
  rw [find_replace_ne _ _ hne]
  rfl

theorem Heap.get_free_self (h : Heap) (id : Nat) :
    (h.free id).get id = none := by
  show (((h.items.filter fun p => p.1 != id).find? fun p => p.1 == id).map
    Prod.snd) = none
  rw [List.find?_eq_none.2]
  · rfl
  · intro p hp
    have := (List.mem_filter.1 hp).2
    simpa using this

theorem Heap.get_free_ne (h : Heap) {id j : Nat} (hne : j ≠ id) :
    (h.free id).get j = h.get j := by
  show (((h.items.filter fun p => p.1 != id).find? fun p => p.1 == j).map
      Prod.snd) = _
  rw [find_filter_ne _ hne]
  rfl

theorem Heap.map_fst_set (h : Heap) (id : Nat) (it : FSP_META_CACHE_ITEM) :
    (h.set id it).items.map Prod.fst = h.items.map Prod.fst := by
  show (h.items.map fun p => if p.1 = id then (id, it) else p).map Prod.fst = _
  rw [List.map_map]
  apply List.map_congr_left
  intro p _
  by_cases hp : p.1 = id <;> simp [hp]

theorem Heap.wf_alloc {h : Heap} (hwf : h.Wf) (it : FSP_META_CACHE_ITEM) :
    (h.alloc it).2.Wf := by
  obtain ⟨hlt, hnd⟩ := hwf
  refine ⟨?_, ?_⟩
  · intro p hp
    rcases List.mem_cons.1 hp with rfl | hp
    · exact Nat.lt_succ_self _
    · exact Nat.lt_succ_of_lt (hlt p hp)
  · refine List.Nodup.cons ?_ hnd
    intro hmem
    rcases List.mem_map.1 hmem with ⟨p, hp, hfst⟩
    exact absurd (hfst ▸ hlt p hp) (lt_irrefl _)

theorem Heap.wf_set {h : Heap} (hwf : h.Wf) (id : Nat)
    (it : FSP_META_CACHE_ITEM) : (h.set id it).Wf := by
  obtain ⟨hlt, hnd⟩ := hwf
  refine ⟨?_, ?_⟩
  · intro p hp
    rcases List.mem_map.1 hp with ⟨q, hq, hqe⟩
    by_cases hq1 : q.1 = id
    · simp only [if_pos hq1] at hqe
      subst hqe
      exact hq1 ▸ hlt q hq
    · simp only [if_neg hq1] at hqe
      exact hqe ▸ hlt q hq
  · rw [Heap.map_fst_set]
    exact hnd

theorem Heap.wf_free {h : Heap} (hwf : h.Wf) (id : Nat) : (h.free id).Wf := by
  obtain ⟨hlt, hnd⟩ := hwf
  refine ⟨?_, ?_⟩
  · intro p hp
    exact hlt p (List.mem_of_mem_filter hp)
  · exact List.Nodup.sublist (List.Sublist.map Prod.fst (List.filter_sublist _)) hnd

theorem Heap.get_lt_next {h : Heap} (hwf : h.Wf) {id : Nat}
    {it : FSP_META_CACHE_ITEM} (hget : h.get id = some it) : id < h.next := by
  obtain ⟨hlt, -⟩ := hwf
  unfold Heap.get at hget
  rcases Option.map_eq_some'.1 hget with ⟨p, hfind, -⟩
  have hmem := List.mem_of_find?_eq_some hfind
  have hbeq := List.find?_some hfind
  have : p.1 = id := by simpa using hbeq
  exact this ▸ hlt p hmem

/-! ### `MetaCacheDereferenceItem` lemmas -/

theorem deref_get_ne (h : Heap) {id j : Nat} (hne : j ≠ id) :
    (MetaCacheDereferenceItem h id).get j = h.get j := by
  unfold MetaCacheDereferenceItem
  cases hget : h.get id with
  | none => rfl
  | some it =>
    by_cases hrc : it.RefCount - 1 = 0
    · simp only [hrc, if_pos rfl]
      exact Heap.get_free_ne h hne
    · simp only [if_neg hrc]
      exact Heap.get_set_ne h _ hne

theorem deref_get_self (h : Heap) {id : Nat} {it : FSP_META_CACHE_ITEM}
    (hget : h.get id = some it) :
    (MetaCacheDereferenceItem h id).get id =
      if it.RefCount - 1 = 0 then none
      else some { it with RefCount := it.RefCount - 1 } := by
  unfold MetaCacheDereferenceItem
  rw [hget]
  by_cases hrc : it.RefCount - 1 = 0
  · simp only [hrc, if_pos rfl]
    exact Heap.get_free_self h id
  · simp only [if_neg hrc]
    exact Heap.get_set_self h hget _

theorem deref_get_none (h : Heap) {id : Nat} (hget : h.get id = none) :
    MetaCacheDereferenceItem h id = h := by
  unfold MetaCacheDereferenceItem
  rw [hget]

theorem Heap.wf_deref {h : Heap} (hwf : h.Wf) (id : Nat) :
    (MetaCacheDereferenceItem h id).Wf := by
  unfold MetaCacheDereferenceItem
  cases hget : h.get id with
  | none => exact hwf
  | some it =>
    by_cases hrc : it.RefCount - 1 = 0
    · simp only [hrc, if_pos rfl]
      exact Heap.wf_free hwf id
    · simp only [if_neg hrc]
      exact Heap.wf_set hwf id _

/-! ### `MetaCacheAddItem` characterization -/

/-- The handle minted by `MetaCacheAddItem`:
`(UINT64)-1LL == ItemIndex ? 1 : ItemIndex + 1`. -/
def mintedIndex (c : FSP_META_CACHE) : Nat :=
  if c.ItemIndex = UINT64_MAX then 1 else c.ItemIndex + 1

/-- The fully initialized item record built by `MetaCacheAddItem` before the
critical section, with the handle stamped on it inside the critical section. -/
def newItem (c : FSP_META_CACHE) (now : Nat) (Buffer : List Nat) (Size idx : Nat) :
    FSP_META_CACHE_ITEM :=
  { ItemIndex := idx
    ExpirationTime := (now + c.MetaTimeout) % 2 ^ 64
    RefCount := 1
    Size := Size
    Buffer := Buffer.take Size }

theorem mintedIndex_ne_zero (c : FSP_META_CACHE) : mintedIndex c ≠ 0 := by
  unfold mintedIndex
  by_cases hc : c.ItemIndex = UINT64_MAX
  · rw [if_pos hc]
    exact one_ne_zero
  · rw [if_neg hc]
    exact Nat.succ_ne_zero _

theorem not_true_eq_false : ¬ (true = false) := by simp

/-- Freeing a just-allocated record returns the heap to its former contents;
only the allocation counter keeps its advance. -/
theorem Heap.free_alloc {h : Heap} (hwf : h.Wf) (it : FSP_META_CACHE_ITEM) :
    (h.alloc it).2.free (h.alloc it).1 = { h with next := h.next + 1 } := by
  unfold Heap.alloc Heap.free
  simp only [Heap.mk.injEq, true_and]
  rw [List.filter_cons_of_neg (by simp)]
  apply List.filter_eq_self.2
  intro p hp
  have := hwf.1 p hp
  simp only [bne_iff_ne, ne_eq]
  omega

theorem MetaCacheAddItem_success (c : FSP_META_CACHE) (h : Heap) (now : Nat)
    (Buffer : List Nat) (Size : Nat)
    (hsz : ¬ ItemBufferHeaderSize + Size > c.ItemSizeMax)
    (hcap : c.ItemCount < c.MetaCapacity) :
    MetaCacheAddItem c h now Buffer Size true true =
      (mintedIndex c,
       { c with
         ItemIndex := mintedIndex c
         ItemCount := c.ItemCount + 1
         ItemList := c.ItemList ++ [h.next]
         ItemBuckets := c.ItemBuckets.set (mintedIndex c % c.ItemBucketCount)
           (h.next :: c.bucket (mintedIndex c % c.ItemBucketCount)) },
       (h.alloc (newItem c now Buffer Size 0)).2.set h.next
         (newItem c now Buffer Size (mintedIndex c))) := by
  unfold MetaCacheAddItem
  rw [if_neg hsz]
  simp only [if_neg not_true_eq_false, if_pos hcap]
  rfl

theorem MetaCacheAddItem_nocapacity (c : FSP_META_CACHE) (h : Heap) (now : Nat)
    (Buffer : List Nat) (Size : Nat)
    (hwf : Heap.Wf h)
    (hsz : ¬ ItemBufferHeaderSize + Size > c.ItemSizeMax)
    (hfull : ¬ c.ItemCount < c.MetaCapacity) :
    MetaCacheAddItem c h now Buffer Size true true =
      (0, c, { h with next := h.next + 1 }) := by
  unfold MetaCacheAddItem
  rw [if_neg hsz]
  simp only [if_neg not_true_eq_false, if_neg hfull]
  show (0, c, (h.alloc (newItem c now Buffer Size 0)).2.free
    (h.alloc (newItem c now Buffer Size 0)).1) = _
  rw [Heap.free_alloc hwf]

theorem MetaCacheAddItem_nocapacity_cache (c : FSP_META_CACHE) (h : Heap)
    (now : Nat) (Buffer : List Nat) (Size : Nat)
    (hsz : ¬ ItemBufferHeaderSize + Size > c.ItemSizeMax)
    (hfull : ¬ c.ItemCount < c.MetaCapacity) :
    (MetaCacheAddItem c h now Buffer Size true true).2.1 = c := by
  unfold MetaCacheAddItem
  rw [if_neg hsz]
  simp only [if_neg not_true_eq_false, if_neg hfull]

/-! ### Claim theorems: insertion-side error handling and handle minting -/

/-- Claim C2: each successful `MetaCacheAddItem` mints the handle
`ItemIndex + 1`, except when `ItemIndex` equals `(UINT64)-1LL`, in which
case it mints `1`; the allocator state is updated to the minted value, the
minted handle is never `0`, and the first handle after wraparound is `1`. -/
theorem claim_C2_handle_allocation (c : FSP_META_CACHE) (h : Heap) (now : Nat)
    (Buffer : List Nat) (Size : Nat)
    (hsz : ¬ ItemBufferHeaderSize + Size > c.ItemSizeMax)
    (hcap : c.ItemCount < c.MetaCapacity) :
    (MetaCacheAddItem c h now Buffer Size true true).1 =
      (if c.ItemIndex = UINT64_MAX then 1 else c.ItemIndex + 1) ∧
    (MetaCacheAddItem c h now Buffer Size true true).2.1.ItemIndex =
      (MetaCacheAddItem c h now Buffer Size true true).1 ∧
    (MetaCacheAddItem c h now Buffer Size true true).1 ≠ 0 ∧
    (c.ItemIndex = UINT64_MAX →
      (MetaCacheAddItem c h now Buffer Size true true).1 = 1) := by
  rw [MetaCacheAddItem_success c h now Buffer Size hsz hcap]
  refine ⟨rfl, rfl, mintedIndex_ne_zero c, fun hmax => ?_⟩
  show mintedIndex c = 1
  rw [mintedIndex, if_pos hmax]

/-- Witness for C2: on a zeroed cache the first minted handle is `1`, and on
a cache whose allocator sits at `(UINT64)-1LL` the next minted handle is
`1` again. -/
theorem claim_C2_handle_allocation_witness :
    (MetaCacheAddItem (MetaCacheCreate 3 4096 100 2) ⟨0, []⟩ 5 [7] 1 true true).1 = 1 ∧
    (MetaCacheAddItem
      { MetaCacheCreate 3 4096 100 2 with ItemIndex := UINT64_MAX }
      ⟨0, []⟩ 5 [7] 1 true true).1 = 1 := by
  constructor
  · exact (claim_C2_handle_allocation (MetaCacheCreate 3 4096 100 2) ⟨0, []⟩ 5 [7] 1
      (by decide) (by decide)).1
  · exact (claim_C2_handle_allocation
      { MetaCacheCreate 3 4096 100 2 with ItemIndex := UINT64_MAX } ⟨0, []⟩ 5 [7] 1
      (by decide) (by decide)).2.2.2 rfl

/-- Claim C3: when `sizeof(FSP_META_CACHE_ITEM_BUFFER) + Size` exceeds
`ItemSizeMax`, `MetaCacheAddItem` returns `0` immediately: no allocation is
performed and neither the cache nor the heap changes. -/
theorem claim_C3_oversize_rejected (c : FSP_META_CACHE) (h : Heap) (now : Nat)
    (Buffer : List Nat) (Size : Nat) (itemAllocOk bufferAllocOk : Bool)
    (hsz : ItemBufferHeaderSize + Size > c.ItemSizeMax) :
    MetaCacheAddItem c h now Buffer Size itemAllocOk bufferAllocOk = (0, c, h) := by
  unfold MetaCacheAddItem
  rw [if_pos hsz]

/-- Witness for C3 at a concrete oversized blob. -/
theorem claim_C3_oversize_rejected_witness :
    MetaCacheAddItem (MetaCacheCreate 3 16 100 2) ⟨0, []⟩ 5 [1] 1 true true =
      (0, MetaCacheCreate 3 16 100 2, ⟨0, []⟩) :=
  claim_C3_oversize_rejected (MetaCacheCreate 3 16 100 2) ⟨0, []⟩ 5 [1] 1 true true
    (by decide)

/-- Claim C4: when the cache is at capacity (`ItemCount = MetaCapacity`),
an `MetaCacheAddItem` whose size check and allocations succeed returns
handle `0`; the pre-allocated item and buffer are freed after the spinlock
is released, so the cache is untouched and the heap keeps no record of them
(only the allocation counter has advanced past the freed id). -/
theorem claim_C4_full_rejected (c : FSP_META_CACHE) (h : Heap) (now : Nat)
    (Buffer : List Nat) (Size : Nat)
    (hwf : Heap.Wf h)
    (hsz : ¬ ItemBufferHeaderSize + Size > c.ItemSizeMax)
    (hfull : c.ItemCount = c.MetaCapacity) :
    MetaCacheAddItem c h now Buffer Size true true =
      (0, c, { h with next := h.next + 1 }) :=
  MetaCacheAddItem_nocapacity c h now Buffer Size hwf hsz
    (by rw [hfull]; exact lt_irrefl _)

/-- Witness for C4 at a concrete full cache. -/
theorem claim_C4_full_rejected_witness :
    MetaCacheAddItem (MetaCacheCreate 0 4096 100 2) ⟨0, []⟩ 5 [1] 1 true true =
      (0, MetaCacheCreate 0 4096 100 2, ⟨1, []⟩) :=
  claim_C4_full_rejected (MetaCacheCreate 0 4096 100 2) ⟨0, []⟩ 5 [1] 1
    (by constructor <;> simp [Heap.Wf]) (by decide) (by decide)

/-- Claim C9: every rejected insertion (`MetaCacheAddItem` returning `0`,
for any of the three reasons: oversize, allocation failure, cache full)
leaves the cache record — count, list, buckets and in particular the handle
allocator `ItemIndex` — exactly as it was. -/
theorem claim_C9_rejection_preserves_cache (c : FSP_META_CACHE) (h : Heap)
    (now : Nat) (Buffer : List Nat) (Size : Nat) (itemAllocOk bufferAllocOk : Bool)
    (hzero : (MetaCacheAddItem c h now Buffer Size itemAllocOk bufferAllocOk).1 = 0) :
    (MetaCacheAddItem c h now Buffer Size itemAllocOk bufferAllocOk).2.1 = c := by
  by_cases hsz : ItemBufferHeaderSize + Size > c.ItemSizeMax
  · unfold MetaCacheAddItem
    rw [if_pos hsz]
  · cases itemAllocOk with
    | false => unfold MetaCacheAddItem; rw [if_neg hsz]; rfl
    | true =>
      cases bufferAllocOk with
      | false => unfold MetaCacheAddItem; rw [if_neg hsz]; rfl
      | true =>
        by_cases hcap : c.ItemCount < c.MetaCapacity
        · exfalso
          rw [MetaCacheAddItem_success c h now Buffer Size hsz hcap] at hzero
          exact mintedIndex_ne_zero c hzero
        · rw [MetaCacheAddItem_nocapacity_cache c h now Buffer Size hsz hcap]

/-- Witness for C9 at a concrete failed allocation. -/
theorem claim_C9_rejection_preserves_cache_witness :
    (MetaCacheAddItem (MetaCacheCreate 3 4096 100 2) ⟨0, []⟩ 5 [1] 1 false true).2.1 =
      MetaCacheCreate 3 4096 100 2 :=
  claim_C9_rejection_preserves_cache (MetaCacheCreate 3 4096 100 2) ⟨0, []⟩ 5 [1] 1
    false true (by decide)

/-! ### Borrow: null `PSize` and the Add/Borrow round trip -/

/-- Claim C10: `MetaCacheReferenceItemBuffer` accepts a null `PSize`: nothing
is stored through it, while the returned payload pointer, the refcount
increment on a hit and the null return on a miss are identical to the
non-null-`PSize` call. -/
theorem claim_C10_null_psize_accepted (c : FSP_META_CACHE) (h : Heap)
    (ItemIndex : Nat) :
    (MetaCacheReferenceItemBuffer c h ItemIndex true).1 =
      (MetaCacheReferenceItemBuffer c h ItemIndex false).1 ∧
    (MetaCacheReferenceItemBuffer c h ItemIndex true).2.2 =
      (MetaCacheReferenceItemBuffer c h ItemIndex false).2.2 ∧
    (MetaCacheReferenceItemBuffer c h ItemIndex true).2.1 = none := by
  unfold MetaCacheReferenceItemBuffer
  cases hf : chainFind h ItemIndex (c.bucket (ItemIndex % c.ItemBucketCount)) <;>
    simp [hf]

/-- Claim C7: after a successful `MetaCacheAddItem` of blob `b` returning a
non-zero handle, `MetaCacheReferenceItemBuffer` on that handle returns a
non-null payload pointer together with size `b.length`, and the payload
bytes behind the pointer equal `b`. -/
theorem claim_C7_add_borrow_roundtrip (c : FSP_META_CACHE) (h : Heap)
    (now : Nat) (b : List Nat)
    (hbpos : 0 < c.ItemBucketCount)
    (hblen : c.ItemBuckets.length = c.ItemBucketCount)
    (hsz : ¬ ItemBufferHeaderSize + b.length > c.ItemSizeMax)
    (hcap : c.ItemCount < c.MetaCapacity) :
    (MetaCacheAddItem c h now b b.length true true).1 ≠ 0 ∧
    (MetaCacheReferenceItemBuffer (MetaCacheAddItem c h now b b.length true true).2.1
      (MetaCacheAddItem c h now b b.length true true).2.2
      (MetaCacheAddItem c h now b b.length true true).1 false).1 = some h.next ∧
    (MetaCacheReferenceItemBuffer (MetaCacheAddItem c h now b b.length true true).2.1
      (MetaCacheAddItem c h now b b.length true true).2.2
      (MetaCacheAddItem c h now b b.length true true).1 false).2.1 = some b.length ∧
    ((MetaCacheReferenceItemBuffer (MetaCacheAddItem c h now b b.length true true).2.1
      (MetaCacheAddItem c h now b b.length true true).2.2
      (MetaCacheAddItem c h now b b.length true true).1 false).2.2.get h.next).map
      FSP_META_CACHE_ITEM.Buffer = some b := by
  rw [MetaCacheAddItem_success c h now b b.length hsz hcap]
  have hget : ((h.alloc (newItem c now b b.length 0)).2.set h.next
      (newItem c now b b.length (mintedIndex c))).get h.next =
      some (newItem c now b b.length (mintedIndex c)) :=
    Heap.get_set_self _ (Heap.get_alloc_self h _) _
  have hbv :
      (FSP_META_CACHE.bucket
        { c with
          ItemIndex := mintedIndex c
          ItemCount := c.ItemCount + 1
          ItemList := c.ItemList ++ [h.next]
          ItemBuckets := c.ItemBuckets.set (mintedIndex c % c.ItemBucketCount)
            (h.next :: c.bucket (mintedIndex c % c.ItemBucketCount)) }
        (mintedIndex c % c.ItemBucketCount)) =
        h.next :: c.bucket (mintedIndex c % c.ItemBucketCount) := by
    show (c.ItemBuckets.set (mintedIndex c % c.ItemBucketCount) _).getD
      (mintedIndex c % c.ItemBucketCount) [] = _
    rw [List.getD_eq_getElem?_getD, List.getElem?_set_eq_of_lt]
    · rfl
    · rw [hblen]
      exact Nat.mod_lt _ hbpos
  have hfind : chainFind
      ((h.alloc (newItem c now b b.length 0)).2.set h.next
        (newItem c now b b.length (mintedIndex c)))
      (mintedIndex c)
      (FSP_META_CACHE.bucket
        { c with
          ItemIndex := mintedIndex c
          ItemCount := c.ItemCount + 1
          ItemList := c.ItemList ++ [h.next]
          ItemBuckets := c.ItemBuckets.set (mintedIndex c % c.ItemBucketCount)
            (h.next :: c.bucket (mintedIndex c % c.ItemBucketCount)) }
        (mintedIndex c % c.ItemBucketCount)) =
      some (h.next, newItem c now b b.length (mintedIndex c)) := by
    rw [hbv]
    unfold chainFind
    rw [hget]
    simp [newItem]
  refine ⟨mintedIndex_ne_zero c, ?_⟩
  unfold MetaCacheReferenceItemBuffer
  dsimp only
  rw [hfind]
  refine ⟨rfl, rfl, ?_⟩
  rw [Heap.get_set_self _ hget]
  simp [newItem, List.take_length]

/-- Witness for C7 at a concrete blob. -/
theorem claim_C7_add_borrow_roundtrip_witness :
    (MetaCacheAddItem (MetaCacheCreate 3 4096 100 2) ⟨0, []⟩ 5 [9, 8] 2 true true).1 ≠ 0 ∧
    (MetaCacheReferenceItemBuffer
      (MetaCacheAddItem (MetaCacheCreate 3 4096 100 2) ⟨0, []⟩ 5 [9, 8] 2 true true).2.1
      (MetaCacheAddItem (MetaCacheCreate 3 4096 100 2) ⟨0, []⟩ 5 [9, 8] 2 true true).2.2
      (MetaCacheAddItem (MetaCacheCreate 3 4096 100 2) ⟨0, []⟩ 5 [9, 8] 2 true true).1
      false).1 = some 0 ∧
    (MetaCacheReferenceItemBuffer
      (MetaCacheAddItem (MetaCacheCreate 3 4096 100 2) ⟨0, []⟩ 5 [9, 8] 2 true true).2.1
      (MetaCacheAddItem (MetaCacheCreate 3 4096 100 2) ⟨0, []⟩ 5 [9, 8] 2 true true).2.2
      (MetaCacheAddItem (MetaCacheCreate 3 4096 100 2) ⟨0, []⟩ 5 [9, 8] 2 true true).1
      false).2.1 = some 2 ∧
    ((MetaCacheReferenceItemBuffer
      (MetaCacheAddItem (MetaCacheCreate 3 4096 100 2) ⟨0, []⟩ 5 [9, 8] 2 true true).2.1
      (MetaCacheAddItem (MetaCacheCreate 3 4096 100 2) ⟨0, []⟩ 5 [9, 8] 2 true true).2.2
      (MetaCacheAddItem (MetaCacheCreate 3 4096 100 2) ⟨0, []⟩ 5 [9, 8] 2 true true).1
      false).2.2.get 0).map FSP_META_CACHE_ITEM.Buffer = some [9, 8] :=
  claim_C7_add_borrow_roundtrip (MetaCacheCreate 3 4096 100 2) ⟨0, []⟩ 5 [9, 8]
    (by decide) (by decide) (by decide) (by decide)

/-! ### Entry lifetime: refcount-driven free and survival of borrows -/

theorem sweepAux_get_of_not_mem (fuel : Nat) :
    ∀ (c : FSP_META_CACHE) (h : Heap) (e id : Nat), id ∉ c.ItemList →
      (MetaCacheInvalidateItemsAux fuel c h e).2.get id = h.get id := by
  induction fuel with
  | zero => intro c h e id _; rfl
  | succ fuel ih =>
    intro c h e id hmem
    unfold MetaCacheInvalidateItemsAux
    cases hl : c.ItemList with
    | nil => rfl
    | cons id0 rest =>
      dsimp only
      cases hg : h.get id0 with
      | none => rfl
      | some it =>
        dsimp only
        by_cases hexp : it.ExpirationTime ≤ e
        · rw [if_pos hexp]
          rw [hl] at hmem
          have hid : id ≠ id0 := fun he => hmem (he ▸ List.mem_cons_self id0 rest)
          rw [ih _ _ e id (fun hr => hmem (List.mem_cons_of_mem id0 hr))]
          exact deref_get_ne h hid
        · rw [if_neg hexp]

theorem sweepAux_preserves_borrowed (fuel : Nat) :
    ∀ (c : FSP_META_CACHE) (h : Heap) (e id : Nat) (it : FSP_META_CACHE_ITEM),
      c.ItemList.Nodup → h.get id = some it → 2 ≤ it.RefCount →
      ∃ it', (MetaCacheInvalidateItemsAux fuel c h e).2.get id = some it' ∧
        it'.Buffer = it.Buffer ∧ it'.Size = it.Size ∧ 1 ≤ it'.RefCount := by
  induction fuel with
  | zero =>
    intro c h e id it _ hget hrc
    exact ⟨it, hget, rfl, rfl, le_trans one_le_two hrc⟩
  | succ fuel ih =>
    intro c h e id it hnd hget hrc
    unfold MetaCacheInvalidateItemsAux
    cases hl : c.ItemList with
    | nil => exact ⟨it, hget, rfl, rfl, le_trans one_le_two hrc⟩
    | cons id0 rest =>
      dsimp only
      cases hg : h.get id0 with
      | none => exact ⟨it, hget, rfl, rfl, le_trans one_le_two hrc⟩
      | some it0 =>
        dsimp only
        by_cases hexp : it0.ExpirationTime ≤ e
        · rw [if_pos hexp]
          rw [hl] at hnd
          by_cases hid : id0 = id
          · subst hid
            have hit : it0 = it := by rw [hg] at hget; exact Option.some.inj hget
            subst hit
            have hrc1 : ¬ it0.RefCount - 1 = 0 := by omega
            have hget' : (MetaCacheDereferenceItem h id0).get id0 =
                some { it0 with RefCount := it0.RefCount - 1 } := by
              rw [deref_get_self h hg, if_neg hrc1]
            rw [sweepAux_get_of_not_mem fuel _ _ e id0
              (by simpa using (List.nodup_cons.1 hnd).1)]
            refine ⟨_, hget', rfl, rfl, ?_⟩
            show (1 : Int) ≤ it0.RefCount - 1
            omega
          · have hgid : (MetaCacheDereferenceItem h id0).get id = h.get id :=
              deref_get_ne h (fun he => hid he.symm)
            exact ih _ _ e id it (List.nodup_cons.1 hnd).2 (hgid ▸ hget) hrc
        · rw [if_neg hexp]
          exact ⟨it, hget, rfl, rfl, le_trans one_le_two hrc⟩

theorem invalidateItem_preserves_borrowed (c : FSP_META_CACHE) (h : Heap)
    (idx id : Nat) (it : FSP_META_CACHE_ITEM)
    (hget : h.get id = some it) (hrc : 2 ≤ it.RefCount) :
    ∃ it', (MetaCacheInvalidateItem c h idx).2.get id = some it' ∧
      it'.Buffer = it.Buffer ∧ it'.Size = it.Size ∧ 1 ≤ it'.RefCount := by
  unfold MetaCacheInvalidateItem
  dsimp only
  cases hr : (chainRemove h idx (c.bucket (idx % c.ItemBucketCount))).1 with
  | none => exact ⟨it, hget, rfl, rfl, le_trans one_le_two hrc⟩
  | some id0 =>
    dsimp only
    by_cases hid : id0 = id
    · subst hid
      have hrc1 : ¬ it.RefCount - 1 = 0 := by omega
      refine ⟨{ it with RefCount := it.RefCount - 1 }, ?_, rfl, rfl, ?_⟩
      · show (MetaCacheDereferenceItem h id0).get id0 = _
        rw [deref_get_self h hget, if_neg hrc1]
      · show (1 : Int) ≤ it.RefCount - 1
        omega
    · have hgid : (MetaCacheDereferenceItem h id0).get id = h.get id :=
        deref_get_ne h (fun he => hid he.symm)
      exact ⟨it, hgid ▸ hget, rfl, rfl, le_trans one_le_two hrc⟩

/-- Claim C1: an entry (item record together with its blob buffer) is freed
exactly when its refcount drops to zero and at no other time: a
`MetaCacheDereferenceItem` from refcount 1 frees it, a dereference from any
other refcount only decrements and leaves the payload untouched; and an
entry removed from the buckets and list by `MetaCacheInvalidateItem` or by
the sweep (`MetaCacheInvalidateItems`, hence also the full drain) while a
borrow is outstanding (refcount at least 2) survives with its payload bytes
unchanged and a positive refcount, so the final return frees it. -/
theorem claim_C1_free_exactly_at_refcount_zero :
    (∀ (h : Heap) (id : Nat) (it : FSP_META_CACHE_ITEM), h.get id = some it →
      ((it.RefCount = 1 → (MetaCacheDereferenceItem h id).get id = none) ∧
       (it.RefCount ≠ 1 → (MetaCacheDereferenceItem h id).get id =
          some { it with RefCount := it.RefCount - 1 }))) ∧
    (∀ (c : FSP_META_CACHE) (h : Heap) (e id : Nat) (it : FSP_META_CACHE_ITEM),
      c.ItemList.Nodup → h.get id = some it → 2 ≤ it.RefCount →
      ∃ it', (MetaCacheInvalidateItems c h e).2.get id = some it' ∧
        it'.Buffer = it.Buffer ∧ it'.Size = it.Size ∧ 1 ≤ it'.RefCount) ∧
    (∀ (c : FSP_META_CACHE) (h : Heap) (idx id : Nat) (it : FSP_META_CACHE_ITEM),
      h.get id = some it → 2 ≤ it.RefCount →
      ∃ it', (MetaCacheInvalidateItem c h idx).2.get id = some it' ∧
        it'.Buffer = it.Buffer ∧ it'.Size = it.Size ∧ 1 ≤ it'.RefCount) := by
  refine ⟨fun h id it hget => ⟨fun h1 => ?_, fun h1 => ?_⟩, ?_, ?_⟩
  · rw [deref_get_self h hget, if_pos (by omega)]
  · rw [deref_get_self h hget, if_neg (by omega)]
  · intro c h e id it hnd hget hrc
    exact sweepAux_preserves_borrowed _ c h e id it hnd hget hrc
  · intro c h idx id it hget hrc
    exact invalidateItem_preserves_borrowed c h idx id it hget hrc

/-- Witness for C1: on a two-item heap, the full drain leaves the borrowed
item (refcount 2) alive with its payload, and dereferencing from refcount 1
frees. -/
theorem claim_C1_free_exactly_at_refcount_zero_witness :
    ((MetaCacheDereferenceItem
        ⟨1, [(0, { ItemIndex := 1, ExpirationTime := 10, RefCount := 1, Size := 1,
                   Buffer := [5] })]⟩ 0).get 0 = none) ∧
    (∃ it', (MetaCacheInvalidateItems
        { MetaCacheCreate 4 4096 100 2 with
            ItemCount := 1
            ItemList := [0]
            ItemBuckets := [[], [0]] }
        ⟨1, [(0, { ItemIndex := 1, ExpirationTime := 10, RefCount := 2, Size := 1,
                   Buffer := [5] })]⟩ UINT64_MAX).2.get 0 = some it' ∧
      it'.Buffer = [5] ∧ it'.Size = 1 ∧ 1 ≤ it'.RefCount) := by
  constructor
  · exact (claim_C1_free_exactly_at_refcount_zero.1
      ⟨1, [(0, { ItemIndex := 1, ExpirationTime := 10, RefCount := 1, Size := 1,
                 Buffer := [5] })]⟩ 0
      { ItemIndex := 1, ExpirationTime := 10, RefCount := 1, Size := 1,
        Buffer := [5] } rfl).1 rfl
  · exact claim_C1_free_exactly_at_refcount_zero.2.1
      { MetaCacheCreate 4 4096 100 2 with
          ItemCount := 1
          ItemList := [0]
          ItemBuckets := [[], [0]] }
      ⟨1, [(0, { ItemIndex := 1, ExpirationTime := 10, RefCount := 2, Size := 1,
                 Buffer := [5] })]⟩ UINT64_MAX 0
      { ItemIndex := 1, ExpirationTime := 10, RefCount := 2, Size := 1,
        Buffer := [5] } (by decide) rfl (by decide)

/-! ### Structural invariant: counting -/

theorem removeFirst_eq_erase (id : Nat) (l : List Nat) :
    removeFirst id l = l.erase id := by
  induction l with
  | nil => rfl
  | cons x xs ih =>
    rw [List.erase_cons]
    unfold removeFirst
    by_cases hx : x = id
    · rw [if_pos hx, if_pos (by simp [hx])]
    · rw [if_neg hx, if_neg (by simp [hx]), ih]

theorem getD_set_self (L : List (List Nat)) {i : Nat} (hi : i < L.length)
    (l : List Nat) : (L.set i l).getD i [] = l := by
  rw [List.getD_eq_getElem?_getD, List.getElem?_set_eq_of_lt _ hi]
  rfl

theorem getD_set_ne (L : List (List Nat)) {i j : Nat} (hne : i ≠ j)
    (l : List Nat) : (L.set i l).getD j [] = L.getD j [] := by
  rw [List.getD_eq_getElem?_getD, List.getElem?_set_ne hne,
    ← List.getD_eq_getElem?_getD]

theorem bucket_eq_getElem (c : FSP_META_CACHE) {i : Nat}
    (hi : i < c.ItemBuckets.length) : c.bucket i = c.ItemBuckets[i] := by
  rw [FSP_META_CACHE.bucket, List.getD_eq_getElem?_getD,
    List.getElem?_eq_getElem hi]
  rfl

/-- Under the structural invariant, `ItemCount` equals the length of the
item list and equals the total population of the bucket chains. -/
theorem cacheWf_count (c : FSP_META_CACHE) (h : Heap) (hwf : CacheWf c h) :
    c.ItemCount = c.ItemList.length ∧ c.ItemCount = bucketsTotal c := by
  obtain ⟨hb, hlen, hcount, hnd, hbnd, h6, h7⟩ := hwf
  refine ⟨hcount, ?_⟩
  rw [hcount, bucketsTotal, ← List.length_flatten]
  have hmem : ∀ a, a ∈ c.ItemList ↔ a ∈ c.ItemBuckets.flatten := by
    intro a
    constructor
    · intro ha
      obtain ⟨it, hget, -, hbm⟩ := h6 a ha
      have hk : it.ItemIndex % c.ItemBucketCount < c.ItemBuckets.length := by
        rw [hlen]
        exact Nat.mod_lt _ hb
      refine List.mem_flatten.2 ⟨c.bucket (it.ItemIndex % c.ItemBucketCount), ?_, hbm⟩
      rw [bucket_eq_getElem c hk]
      exact List.getElem_mem hk
    · intro ha
      obtain ⟨l, hl, hal⟩ := List.mem_flatten.1 ha
      obtain ⟨i, hilt, rfl⟩ := List.mem_iff_getElem.1 hl
      exact (h7 i hilt a (by rw [bucket_eq_getElem c hilt]; exact hal)).1
  have hjnd : c.ItemBuckets.flatten.Nodup := by
    refine List.nodup_flatten.2 ⟨?_, ?_⟩
    · intro l hl
      obtain ⟨i, hilt, rfl⟩ := List.mem_iff_getElem.1 hl
      have := hbnd i hilt
      rwa [bucket_eq_getElem c hilt] at this
    · refine List.pairwise_iff_getElem.2 fun i j hi hj hij => ?_
      intro a hai haj
      have hmi := h7 i hi a (by rw [bucket_eq_getElem c hi]; exact hai)
      have hmj := h7 j hj a (by rw [bucket_eq_getElem c hj]; exact haj)
      obtain ⟨it, hget, -, -⟩ := h6 a hmi.1
      have hhi := hmi.2 it hget
      have hhj := hmj.2 it hget
      omega
  have hperm : c.ItemList.Perm c.ItemBuckets.flatten :=
    List.perm_of_nodup_nodup_toFinset_eq hnd hjnd
      (Finset.ext fun a => by
        rw [List.mem_toFinset, List.mem_toFinset]
        exact hmem a)
  exact hperm.length_eq

/-! ### Structural invariant: preservation by insertion -/

theorem cacheWf_insert (c : FSP_META_CACHE) (h : Heap)
    (it0 it1 : FSP_META_CACHE_ITEM) (ix : Nat)
    (hwfh : Heap.Wf h) (hcwf : CacheWf c h)
    (hexp : it1.ExpirationTime < 2 ^ 64) :
    CacheWf
      { c with
        ItemIndex := ix
        ItemCount := c.ItemCount + 1
        ItemList := c.ItemList ++ [h.next]
        ItemBuckets := c.ItemBuckets.set (it1.ItemIndex % c.ItemBucketCount)
          (h.next :: c.bucket (it1.ItemIndex % c.ItemBucketCount)) }
      ((h.alloc it0).2.set h.next it1) := by
  obtain ⟨hb, hlen, hcount, hnd, hbnd, h6, h7⟩ := hcwf
  have hxlt : ∀ x ∈ c.ItemList, x < h.next := by
    intro x hx
    obtain ⟨it, hget, -, -⟩ := h6 x hx
    exact Heap.get_lt_next hwfh hget
  have hgetne : ∀ x : Nat, x ≠ h.next →
      ((h.alloc it0).2.set h.next it1).get x = h.get x := by
    intro x hx
    rw [Heap.get_set_ne _ _ hx, Heap.get_alloc_ne h _ hx]
  have hgetnew : ((h.alloc it0).2.set h.next it1).get h.next = some it1 :=
    Heap.get_set_self _ (Heap.get_alloc_self h it0) it1
  have hHI : it1.ItemIndex % c.ItemBucketCount < c.ItemBuckets.length := by
    rw [hlen]
    exact Nat.mod_lt _ hb
  have hbv1 : (c.ItemBuckets.set (it1.ItemIndex % c.ItemBucketCount)
      (h.next :: c.ItemBuckets.getD (it1.ItemIndex % c.ItemBucketCount) [])).getD
      (it1.ItemIndex % c.ItemBucketCount) [] =
      h.next :: c.ItemBuckets.getD (it1.ItemIndex % c.ItemBucketCount) [] :=
    getD_set_self _ hHI _
  have hbv2 : ∀ i : Nat, it1.ItemIndex % c.ItemBucketCount ≠ i →
      (c.ItemBuckets.set (it1.ItemIndex % c.ItemBucketCount)
        (h.next :: c.ItemBuckets.getD (it1.ItemIndex % c.ItemBucketCount) [])).getD
        i [] =
      c.ItemBuckets.getD i [] := by
    intro i hne
    exact getD_set_ne _ hne _
  refine ⟨hb, ?_, ?_, ?_, ?_, ?_, ?_⟩
  · dsimp only
    rw [List.length_set]
    exact hlen
  · dsimp only
    rw [List.length_append, hcount]
    rfl
  · dsimp only
    refine List.nodup_append.2 ⟨hnd, List.nodup_singleton _, ?_⟩
    intro x hx hmem
    rw [List.mem_singleton] at hmem
    exact absurd (hmem ▸ hxlt x hx) (lt_irrefl _)
  · dsimp only [FSP_META_CACHE.bucket]
    intro i hi
    rw [List.length_set] at hi
    by_cases hii : it1.ItemIndex % c.ItemBucketCount = i
    · subst hii
      rw [hbv1]
      refine List.nodup_cons.2 ⟨?_, hbnd _ hHI⟩
      intro hmem
      exact absurd (hxlt _ ((h7 _ hHI _ hmem).1)) (lt_irrefl _)
    · rw [hbv2 i hii]
      exact hbnd i hi
  · dsimp only [FSP_META_CACHE.bucket]
    intro x hx
    rcases List.mem_append.1 hx with hx | hx
    · obtain ⟨it, hget, hexp', hbm⟩ := h6 x hx
      have hxne : x ≠ h.next := Nat.ne_of_lt (hxlt x hx)
      refine ⟨it, ?_, hexp', ?_⟩
      · rw [hgetne x hxne]
        exact hget
      · by_cases hsame : it1.ItemIndex % c.ItemBucketCount =
          it.ItemIndex % c.ItemBucketCount
        · rw [← hsame, hbv1, hsame]
          exact List.mem_cons_of_mem _ hbm
        · rw [hbv2 _ hsame]
          exact hbm
    · rw [List.mem_singleton] at hx
      subst hx
      exact ⟨it1, hgetnew, hexp, by rw [hbv1]; exact List.mem_cons_self _ _⟩
  · dsimp only [FSP_META_CACHE.bucket]
    intro i hi x hxmem
    rw [List.length_set] at hi
    by_cases hii : it1.ItemIndex % c.ItemBucketCount = i
    · subst hii
      rw [hbv1] at hxmem
      rcases List.mem_cons.1 hxmem with hx | hx
      · subst hx
        refine ⟨List.mem_append_right _ (List.mem_singleton_self _), ?_⟩
        intro it hget
        rw [hgetnew] at hget
        rw [← Option.some.inj hget]
      · have hx7 := h7 _ hHI x hx
        have hxne : x ≠ h.next := Nat.ne_of_lt (hxlt x hx7.1)
        refine ⟨List.mem_append_left _ hx7.1, ?_⟩
        intro it hget
        rw [hgetne x hxne] at hget
        exact hx7.2 it hget
    · rw [hbv2 i hii] at hxmem
      have hx7 := h7 i hi x hxmem
      have hxne : x ≠ h.next := Nat.ne_of_lt (hxlt x hx7.1)
      refine ⟨List.mem_append_left _ hx7.1, ?_⟩
      intro it hget
      rw [hgetne x hxne] at hget
      exact hx7.2 it hget

/-! ### Structural invariant: preservation by removal -/

theorem removeFirst_cons_self (id : Nat) (xs : List Nat) :
    removeFirst id (id :: xs) = xs := by
  unfold removeFirst
  rw [if_pos rfl]

theorem removeFirst_cons_ne {x id : Nat} (hne : x ≠ id) (xs : List Nat) :
    removeFirst id (x :: xs) = x :: removeFirst id xs := by
  simp only [removeFirst, if_neg hne]

theorem chainRemove_some (h : Heap) (idx : Nat) :
    ∀ (l : List Nat) (id : Nat) (l' : List Nat),
      chainRemove h idx l = (some id, l') →
      id ∈ l ∧ (∃ it, h.get id = some it ∧ it.ItemIndex = idx) ∧
        l' = removeFirst id l := by
  intro l
  induction l with
  | nil =>
    intro id l' heq
    exact absurd heq (by simp [chainRemove])
  | cons x xs ih =>
    intro id l' heq
    unfold chainRemove at heq
    cases hg : h.get x with
    | some it =>
      rw [hg] at heq
      dsimp only at heq
      by_cases hidx : it.ItemIndex = idx
      · rw [if_pos hidx] at heq
        rw [Prod.mk.injEq] at heq
        obtain ⟨hx, hl'⟩ := heq
        obtain rfl := Option.some.inj hx
        refine ⟨List.mem_cons_self _ _, ⟨it, hg, hidx⟩, ?_⟩
        rw [removeFirst_cons_self]
        exact hl'.symm
      · rw [if_neg hidx] at heq
        rw [Prod.mk.injEq] at heq
        obtain ⟨h1, h2⟩ := heq
        obtain ⟨hmem, hex, hrf⟩ := ih id (chainRemove h idx xs).2 (by rw [← h1])
        have hxne : x ≠ id := by
          rintro rfl
          obtain ⟨it', hg', hidx'⟩ := hex
          rw [hg] at hg'
          exact hidx (Option.some.inj hg' ▸ hidx')
        refine ⟨List.mem_cons_of_mem _ hmem, hex, ?_⟩
        rw [← h2, hrf, removeFirst_cons_ne hxne]
    | none =>
      rw [hg] at heq
      dsimp only at heq
      rw [Prod.mk.injEq] at heq
      obtain ⟨h1, h2⟩ := heq
      obtain ⟨hmem, hex, hrf⟩ := ih id (chainRemove h idx xs).2 (by rw [← h1])
      have hxne : x ≠ id := by
        rintro rfl
        obtain ⟨it', hg', -⟩ := hex
        rw [hg] at hg'
        exact Option.noConfusion hg'
      refine ⟨List.mem_cons_of_mem _ hmem, hex, ?_⟩
      rw [← h2, hrf, removeFirst_cons_ne hxne]

/-- Removing an entry from the cache structures (unlink from its hash
bucket, unlink from the list, decrement the count) and releasing the
cache's reference preserves the state invariant. -/
theorem stateWf_remove (c : FSP_META_CACHE) (h : Heap) (id : Nat)
    (it : FSP_META_CACHE_ITEM)
    (hwfh : Heap.Wf h) (hcwf : CacheWf c h)
    (hget : h.get id = some it) (hmem : id ∈ c.ItemList) :
    StateWf
      { c with
        ItemBuckets := c.ItemBuckets.set (it.ItemIndex % c.ItemBucketCount)
          (removeFirst id (c.bucket (it.ItemIndex % c.ItemBucketCount)))
        ItemList := removeFirst id c.ItemList
        ItemCount := c.ItemCount - 1 }
      (MetaCacheDereferenceItem h id) := by
  obtain ⟨hb, hlen, hcount, hnd, hbnd, h6, h7⟩ := hcwf
  have hHI : it.ItemIndex % c.ItemBucketCount < c.ItemBuckets.length := by
    rw [hlen]
    exact Nat.mod_lt _ hb
  have hbmem : id ∈ c.ItemBuckets.getD (it.ItemIndex % c.ItemBucketCount) [] := by
    obtain ⟨it', hget', -, hbm⟩ := h6 id hmem
    obtain rfl : it' = it := by
      rw [hget] at hget'
      exact (Option.some.inj hget').symm
    exact hbm
  have hbv1 : (c.ItemBuckets.set (it.ItemIndex % c.ItemBucketCount)
      (removeFirst id (c.ItemBuckets.getD (it.ItemIndex % c.ItemBucketCount) []))).getD
      (it.ItemIndex % c.ItemBucketCount) [] =
      (c.ItemBuckets.getD (it.ItemIndex % c.ItemBucketCount) []).erase id := by
    rw [getD_set_self _ hHI, removeFirst_eq_erase]
  have hbv2 : ∀ i : Nat, it.ItemIndex % c.ItemBucketCount ≠ i →
      (c.ItemBuckets.set (it.ItemIndex % c.ItemBucketCount)
        (removeFirst id (c.ItemBuckets.getD (it.ItemIndex % c.ItemBucketCount) []))).getD
        i [] = c.ItemBuckets.getD i [] := by
    intro i hne
    exact getD_set_ne _ hne _
  refine ⟨Heap.wf_deref hwfh id, hb, ?_, ?_, ?_, ?_, ?_, ?_⟩
  · dsimp only
    rw [List.length_set]
    exact hlen
  · dsimp only
    rw [removeFirst_eq_erase, List.length_erase_of_mem hmem, hcount]
  · dsimp only
    rw [removeFirst_eq_erase]
    exact hnd.erase id
  · dsimp only [FSP_META_CACHE.bucket]
    intro i hi
    rw [List.length_set] at hi
    by_cases hii : it.ItemIndex % c.ItemBucketCount = i
    · subst hii
      rw [hbv1]
      exact (hbnd _ hHI).erase id
    · rw [hbv2 i hii]
      exact hbnd i hi
  · dsimp only [FSP_META_CACHE.bucket]
    intro x hx
    rw [removeFirst_eq_erase] at hx
    obtain ⟨hxne, hxmem⟩ := hnd.mem_erase_iff.1 hx
    obtain ⟨itx, hgetx, hexpx, hbmx⟩ := h6 x hxmem
    refine ⟨itx, ?_, hexpx, ?_⟩
    · rw [deref_get_ne h hxne]
      exact hgetx
    · by_cases hsame : it.ItemIndex % c.ItemBucketCount =
        itx.ItemIndex % c.ItemBucketCount
      · rw [← hsame, hbv1]
        rw [← hsame] at hbmx
        exact (List.mem_erase_of_ne hxne).2 hbmx
      · rw [hbv2 _ hsame]
        exact hbmx
  · dsimp only [FSP_META_CACHE.bucket]
    intro i hi x hxmem
    rw [List.length_set] at hi
    by_cases hii : it.ItemIndex % c.ItemBucketCount = i
    · subst hii
      rw [hbv1] at hxmem
      obtain ⟨hxne, hxbm⟩ := (hbnd _ hHI).mem_erase_iff.1 hxmem
      have hx7 := h7 _ hHI x hxbm
      refine ⟨?_, ?_⟩
      · rw [removeFirst_eq_erase]
        exact hnd.mem_erase_iff.2 ⟨hxne, hx7.1⟩
      · intro itx hgetx
        rw [deref_get_ne h hxne] at hgetx
        exact hx7.2 itx hgetx
    · rw [hbv2 i hii] at hxmem
      have hx7 := h7 i hi x hxmem
      have hxne : x ≠ id := by
        rintro rfl
        exact hii (hx7.2 it hget)
      refine ⟨?_, ?_⟩
      · rw [removeFirst_eq_erase]
        exact hnd.mem_erase_iff.2 ⟨hxne, hx7.1⟩
      · intro itx hgetx
        rw [deref_get_ne h hxne] at hgetx
        exact hx7.2 itx hgetx

theorem stateWf_invalidateItem (c : FSP_META_CACHE) (h : Heap) (idx : Nat)
    (hwf : StateWf c h) :
    StateWf (MetaCacheInvalidateItem c h idx).1
      (MetaCacheInvalidateItem c h idx).2 := by
  obtain ⟨hwfh, hcwf⟩ := hwf
  unfold MetaCacheInvalidateItem
  dsimp only
  cases hr : (chainRemove h idx (c.bucket (idx % c.ItemBucketCount))).1 with
  | none => exact ⟨hwfh, hcwf⟩
  | some id =>
    dsimp only
    obtain ⟨hbmem, ⟨it, hget, hidx⟩, hl'⟩ :=
      chainRemove_some h idx (c.bucket (idx % c.ItemBucketCount)) id
        (chainRemove h idx (c.bucket (idx % c.ItemBucketCount))).2 (by rw [← hr])
    have hHIlt : idx % c.ItemBucketCount < c.ItemBuckets.length := by
      rw [hcwf.2.1]
      exact Nat.mod_lt _ hcwf.1
    have hmem : id ∈ c.ItemList :=
      (hcwf.2.2.2.2.2.2 (idx % c.ItemBucketCount) hHIlt id hbmem).1
    rw [hl', ← hidx]
    exact stateWf_remove c h id it hwfh hcwf hget hmem

theorem stateWf_invalidateItemsAux (fuel : Nat) :
    ∀ (c : FSP_META_CACHE) (h : Heap) (e : Nat), StateWf c h →
      StateWf (MetaCacheInvalidateItemsAux fuel c h e).1
        (MetaCacheInvalidateItemsAux fuel c h e).2 := by
  induction fuel with
  | zero => intro c h e hwf; exact hwf
  | succ fuel ih =>
    intro c h e hwf
    unfold MetaCacheInvalidateItemsAux
    cases hl : c.ItemList with
    | nil => exact hwf
    | cons id rest =>
      dsimp only
      cases hg : h.get id with
      | none => exact hwf
      | some it =>
        dsimp only
        by_cases hexp : it.ExpirationTime ≤ e
        · rw [if_pos hexp]
          apply ih
          have hmem : id ∈ c.ItemList := by
            rw [hl]
            exact List.mem_cons_self _ _
          have hrw : rest = removeFirst id c.ItemList := by
            rw [hl, removeFirst_cons_self]
          rw [hrw]
          exact stateWf_remove c h id it hwf.1 hwf.2 hg hmem
        · rw [if_neg hexp]
          exact hwf

/-! ### Invariant preservation across every `MetaCacheAddItem` path -/

theorem MetaCacheAddItem_oversize (c : FSP_META_CACHE) (h : Heap) (now : Nat)
    (Buffer : List Nat) (Size : Nat) (itemAllocOk bufferAllocOk : Bool)
    (hsz : ItemBufferHeaderSize + Size > c.ItemSizeMax) :
    MetaCacheAddItem c h now Buffer Size itemAllocOk bufferAllocOk = (0, c, h) := by
  unfold MetaCacheAddItem
  rw [if_pos hsz]

theorem MetaCacheAddItem_noitem (c : FSP_META_CACHE) (h : Heap) (now : Nat)
    (Buffer : List Nat) (Size : Nat) (bufferAllocOk : Bool)
    (hsz : ¬ ItemBufferHeaderSize + Size > c.ItemSizeMax) :
    MetaCacheAddItem c h now Buffer Size false bufferAllocOk = (0, c, h) := by
  unfold MetaCacheAddItem
  rw [if_neg hsz, if_pos rfl]

theorem MetaCacheAddItem_nobuffer (c : FSP_META_CACHE) (h : Heap) (now : Nat)
    (Buffer : List Nat) (Size : Nat)
    (hsz : ¬ ItemBufferHeaderSize + Size > c.ItemSizeMax) :
    MetaCacheAddItem c h now Buffer Size true false =
      (0, c, { h with next := h.next + 1 }) := by
  unfold MetaCacheAddItem
  rw [if_neg hsz, if_neg not_true_eq_false, if_pos rfl]

theorem stateWf_bump {c : FSP_META_CACHE} {h : Heap} (hwf : StateWf c h) :
    StateWf c { h with next := h.next + 1 } :=
  ⟨⟨fun p hp => Nat.lt_succ_of_lt (hwf.1.1 p hp), hwf.1.2⟩, hwf.2⟩

theorem stateWf_addItem (c : FSP_META_CACHE) (h : Heap) (now : Nat)
    (Buffer : List Nat) (Size : Nat) (itemAllocOk bufferAllocOk : Bool)
    (hwf : StateWf c h) :
    StateWf (MetaCacheAddItem c h now Buffer Size itemAllocOk bufferAllocOk).2.1
      (MetaCacheAddItem c h now Buffer Size itemAllocOk bufferAllocOk).2.2 := by
  by_cases hsz : ItemBufferHeaderSize + Size > c.ItemSizeMax
  · rw [MetaCacheAddItem_oversize c h now Buffer Size _ _ hsz]
    exact hwf
  cases itemAllocOk with
  | false =>
    rw [MetaCacheAddItem_noitem c h now Buffer Size _ hsz]
    exact hwf
  | true =>
    cases bufferAllocOk with
    | false =>
      rw [MetaCacheAddItem_nobuffer c h now Buffer Size hsz]
      exact stateWf_bump hwf
    | true =>
      by_cases hcap : c.ItemCount < c.MetaCapacity
      · rw [MetaCacheAddItem_success c h now Buffer Size hsz hcap]
        dsimp only
        exact ⟨Heap.wf_set (Heap.wf_alloc hwf.1 _) _ _,
          cacheWf_insert c h (newItem c now Buffer Size 0)
            (newItem c now Buffer Size (mintedIndex c)) (mintedIndex c)
            hwf.1 hwf.2
            (Nat.mod_lt (now + c.MetaTimeout) (by decide))⟩
      · rw [MetaCacheAddItem_nocapacity c h now Buffer Size hwf.1 hsz hcap]
        exact stateWf_bump hwf

theorem getD_replicate_nil (n i : Nat) :
    (List.replicate n ([] : List Nat)).getD i [] = [] := by
  rw [List.getD_eq_getElem?_getD, List.getElem?_replicate]
  rcases Nat.lt_or_ge i n with hin | hin
  · rw [if_pos hin]
    rfl
  · rw [if_neg (Nat.not_lt.2 hin)]
    rfl

/-- The state produced by `MetaCacheCreate` over an empty heap satisfies the
invariant, grounding "every reachable state". -/
theorem stateWf_create (MetaCapacity ItemSizeMax MetaTimeout BucketCount : Nat)
    (hn : 0 < BucketCount) :
    StateWf (MetaCacheCreate MetaCapacity ItemSizeMax MetaTimeout BucketCount)
      ⟨0, []⟩ := by
  refine ⟨⟨?_, ?_⟩, hn, ?_, rfl, List.nodup_nil, ?_, ?_, ?_⟩
  · intro p hp
    exact absurd hp (List.not_mem_nil p)
  · exact List.nodup_nil
  · exact List.length_replicate BucketCount []
  · intro i hi
    show ((List.replicate BucketCount ([] : List Nat)).getD i []).Nodup
    rw [getD_replicate_nil]
    exact List.nodup_nil
  · intro id hid
    exact absurd hid (List.not_mem_nil id)
  · intro i hi id hid
    rw [show (MetaCacheCreate MetaCapacity ItemSizeMax MetaTimeout
        BucketCount).bucket i = [] from getD_replicate_nil BucketCount i] at hid
    exact absurd hid (List.not_mem_nil id)

/-- Claim C5: in every reachable cache state (characterized by the state
invariant, which holds for the zeroed cache of `MetaCacheCreate` and is
preserved by every operation), `ItemCount` equals the number of entries on
the insertion-ordered list and equals the total population of the bucket
chains; `MetaCacheAddItem`, `MetaCacheInvalidateItem`,
`MetaCacheInvalidateExpired` and `MetaCacheInvalidateAll` each preserve the
invariant and hence this equality. -/
theorem claim_C5_count_invariant :
    (∀ (c : FSP_META_CACHE) (h : Heap), StateWf c h →
      c.ItemCount = c.ItemList.length ∧ c.ItemCount = bucketsTotal c) ∧
    (∀ (MetaCapacity ItemSizeMax MetaTimeout BucketCount : Nat),
      0 < BucketCount →
      StateWf (MetaCacheCreate MetaCapacity ItemSizeMax MetaTimeout BucketCount)
        ⟨0, []⟩) ∧
    (∀ (c : FSP_META_CACHE) (h : Heap) (now : Nat) (Buffer : List Nat)
      (Size : Nat) (itemAllocOk bufferAllocOk : Bool), StateWf c h →
      StateWf (MetaCacheAddItem c h now Buffer Size itemAllocOk bufferAllocOk).2.1
        (MetaCacheAddItem c h now Buffer Size itemAllocOk bufferAllocOk).2.2) ∧
    (∀ (c : FSP_META_CACHE) (h : Heap) (idx : Nat), StateWf c h →
      StateWf (MetaCacheInvalidateItem c h idx).1
        (MetaCacheInvalidateItem c h idx).2) ∧
    (∀ (c : FSP_META_CACHE) (h : Heap) (now : Nat), StateWf c h →
      StateWf (MetaCacheInvalidateExpired c h now).1
        (MetaCacheInvalidateExpired c h now).2) ∧
    (∀ (c : FSP_META_CACHE) (h : Heap), StateWf c h →
      StateWf (MetaCacheInvalidateAll c h).1 (MetaCacheInvalidateAll c h).2) :=
  ⟨fun c h hwf => cacheWf_count c h hwf.2,
   stateWf_create,
   stateWf_addItem,
   stateWf_invalidateItem,
   fun c h now hwf => stateWf_invalidateItemsAux _ c h now hwf,
   fun c h hwf => stateWf_invalidateItemsAux _ c h UINT64_MAX hwf⟩

/-- Witness for C5: the count equalities hold in the concrete state reached
by one successful insertion into a freshly created cache. -/
theorem claim_C5_count_invariant_witness :
    (MetaCacheAddItem (MetaCacheCreate 3 4096 100 2) ⟨0, []⟩ 5 [7] 1 true
      true).2.1.ItemCount =
      (MetaCacheAddItem (MetaCacheCreate 3 4096 100 2) ⟨0, []⟩ 5 [7] 1 true
        true).2.1.ItemList.length ∧
    (MetaCacheAddItem (MetaCacheCreate 3 4096 100 2) ⟨0, []⟩ 5 [7] 1 true
      true).2.1.ItemCount =
      bucketsTotal (MetaCacheAddItem (MetaCacheCreate 3 4096 100 2) ⟨0, []⟩ 5
        [7] 1 true true).2.1 :=
  claim_C5_count_invariant.1 _ _
    (claim_C5_count_invariant.2.2.1 _ _ 5 [7] 1 true true
      (claim_C5_count_invariant.2.1 3 4096 100 2 (by decide)))

/-! ### Full drain -/

theorem sweepAux_drains (fuel : Nat) :
    ∀ (c : FSP_META_CACHE) (h : Heap) (e : Nat), StateWf c h →
      c.ItemList.length ≤ fuel →
      (∀ id ∈ c.ItemList, ∀ it, h.get id = some it → it.ExpirationTime ≤ e) →
      (MetaCacheInvalidateItemsAux fuel c h e).1.ItemList = [] := by
  induction fuel with
  | zero =>
    intro c h e hwf hle hexp
    exact List.length_eq_zero.1 (Nat.le_zero.1 hle)
  | succ fuel ih =>
    intro c h e hwf hle hexp
    unfold MetaCacheInvalidateItemsAux
    cases hl : c.ItemList with
    | nil => exact hl
    | cons id rest =>
      dsimp only
      have hmem : id ∈ c.ItemList := by
        rw [hl]
        exact List.mem_cons_self _ _
      obtain ⟨-, -, -, hnd, -, h6, -⟩ := hwf.2
      obtain ⟨it, hget, -, -⟩ := h6 id hmem
      rw [hget]
      dsimp only
      rw [if_pos (hexp id hmem it hget)]
      apply ih
      · have hrw : rest = removeFirst id c.ItemList := by
          rw [hl, removeFirst_cons_self]
        rw [hrw]
        exact stateWf_remove c h id it hwf.1 hwf.2 hget hmem
      · rw [hl] at hle
        exact Nat.le_of_succ_le_succ hle
      · intro x hx it' hget'
        have hxmem : x ∈ c.ItemList := by
          rw [hl]
          exact List.mem_cons_of_mem _ hx
        have hxne : x ≠ id := by
          rintro rfl
          rw [hl] at hnd
          exact (List.nodup_cons.1 hnd).1 hx
        rw [deref_get_ne h hxne] at hget'
        exact hexp x hxmem it' hget'

/-- The drained-cache condition stated from the spec (§4.5): a full drain
leaves no live entry, so the count is zero and list and buckets are empty. -/
def specDrained (c : FSP_META_CACHE) : Prop :=
  c.ItemCount = 0 ∧ c.ItemList = [] ∧
  ∀ i < c.ItemBuckets.length, c.bucket i = []

/-- Claim C8: `MetaCacheInvalidateAll` is exactly the expiry-sweep loop
invoked with the comparison threshold `(UINT64)-1LL`, every entry of a
well-formed state satisfies the expiry predicate against that threshold,
and the cache is drained (zero count, empty list, empty buckets) when it
returns. -/
theorem claim_C8_invalidate_all_drains :
    (∀ (c : FSP_META_CACHE) (h : Heap),
      MetaCacheInvalidateAll c h = MetaCacheInvalidateItems c h UINT64_MAX) ∧
    (∀ (c : FSP_META_CACHE) (h : Heap), StateWf c h →
      (∀ id ∈ c.ItemList, ∀ it, h.get id = some it →
        it.ExpirationTime ≤ UINT64_MAX) ∧
      specDrained (MetaCacheInvalidateAll c h).1) := by
  refine ⟨fun c h => rfl, fun c h hwf => ?_⟩
  have hexp : ∀ id ∈ c.ItemList, ∀ it, h.get id = some it →
      it.ExpirationTime ≤ UINT64_MAX := by
    intro id hid it hget
    obtain ⟨-, -, -, -, -, h6, -⟩ := hwf.2
    obtain ⟨it', hget', hexp64, -⟩ := h6 id hid
    obtain rfl : it' = it := by
      rw [hget] at hget'
      exact (Option.some.inj hget').symm
    simp only [UINT64_MAX]
    omega
  have hlist : (MetaCacheInvalidateAll c h).1.ItemList = [] :=
    sweepAux_drains c.ItemList.length c h UINT64_MAX hwf le_rfl hexp
  have hwf' : StateWf (MetaCacheInvalidateAll c h).1 (MetaCacheInvalidateAll c h).2 :=
    stateWf_invalidateItemsAux c.ItemList.length c h UINT64_MAX hwf
  obtain ⟨-, -, hcount, -, -, -, h7⟩ := hwf'.2
  refine ⟨hexp, ?_, hlist, ?_⟩
  · rw [hcount, hlist]
    rfl
  · intro i hi
    refine List.eq_nil_iff_forall_not_mem.2 fun id hid => ?_
    have := (h7 i hi id hid).1
    rw [hlist] at this
    exact List.not_mem_nil id this

/-- Witness for C8: draining the concrete one-entry cache built by a create
and one insertion empties it. -/
theorem claim_C8_invalidate_all_drains_witness :
    specDrained (MetaCacheInvalidateAll
      (MetaCacheAddItem (MetaCacheCreate 3 4096 100 2) ⟨0, []⟩ 5 [7] 1 true
        true).2.1
      (MetaCacheAddItem (MetaCacheCreate 3 4096 100 2) ⟨0, []⟩ 5 [7] 1 true
        true).2.2).1 :=
  (claim_C8_invalidate_all_drains.2 _ _
    (stateWf_addItem _ _ 5 [7] 1 true true
      (stateWf_create 3 4096 100 2 (by decide)))).2

/-! ### Ordering of the item list by expiration time -/

theorem MetaCacheAddItem_nocapacity_heap (c : FSP_META_CACHE) (h : Heap)
    (now : Nat) (Buffer : List Nat) (Size : Nat)
    (hsz : ¬ ItemBufferHeaderSize + Size > c.ItemSizeMax)
    (hfull : ¬ c.ItemCount < c.MetaCapacity) :
    (MetaCacheAddItem c h now Buffer Size true true).2.2 =
      (h.alloc (newItem c now Buffer Size 0)).2.free h.next := by
  unfold MetaCacheAddItem
  rw [if_neg hsz]
  simp only [if_neg not_true_eq_false, if_neg hfull]
  rfl

theorem expList_add_success (c : FSP_META_CACHE) (h : Heap) (now : Nat)
    (Buffer : List Nat) (Size : Nat)
    (hsz : ¬ ItemBufferHeaderSize + Size > c.ItemSizeMax)
    (hcap : c.ItemCount < c.MetaCapacity)
    (hlt : ∀ id ∈ c.ItemList, id < h.next)
    (hnof : now + c.MetaTimeout < 2 ^ 64) :
    expList (MetaCacheAddItem c h now Buffer Size true true).2.1
      (MetaCacheAddItem c h now Buffer Size true true).2.2 =
      expList c h ++ [now + c.MetaTimeout] := by
  rw [MetaCacheAddItem_success c h now Buffer Size hsz hcap]
  show (c.ItemList ++ [h.next]).filterMap _ = _
  rw [List.filterMap_append]
  congr 1
  · exact List.filterMap_congr fun x hx => by
      rw [Heap.get_set_ne _ _ (Nat.ne_of_lt (hlt x hx)),
        Heap.get_alloc_ne h _ (Nat.ne_of_lt (hlt x hx))]
  · have hgetnew : ((h.alloc (newItem c now Buffer Size 0)).2.set h.next
        (newItem c now Buffer Size (mintedIndex c))).get h.next =
        some (newItem c now Buffer Size (mintedIndex c)) :=
      Heap.get_set_self _ (Heap.get_alloc_self h _) _
    show ([h.next].filterMap fun x =>
      (((h.alloc (newItem c now Buffer Size 0)).2.set h.next
        (newItem c now Buffer Size (mintedIndex c))).get x).map
        FSP_META_CACHE_ITEM.ExpirationTime) = _
    rw [List.filterMap_cons]
    rw [hgetnew]
    dsimp only [newItem, Option.map, List.filterMap_nil]
    rw [Nat.mod_eq_of_lt hnof]

theorem sweepAux_sorted (fuel : Nat) :
    ∀ (c : FSP_META_CACHE) (h : Heap) (e : Nat),
      c.ItemList.Nodup → (expList c h).Sorted (· ≤ ·) →
      (expList (MetaCacheInvalidateItemsAux fuel c h e).1
        (MetaCacheInvalidateItemsAux fuel c h e).2).Sorted (· ≤ ·) := by
  induction fuel with
  | zero => intro c h e _ hs; exact hs
  | succ fuel ih =>
    intro c h e hnd hs
    unfold MetaCacheInvalidateItemsAux
    cases hl : c.ItemList with
    | nil => exact hs
    | cons id rest =>
      dsimp only
      cases hg : h.get id with
      | none => exact hs
      | some it =>
        dsimp only
        by_cases hexp : it.ExpirationTime ≤ e
        · rw [if_pos hexp]
          rw [hl] at hnd
          have hndr := (List.nodup_cons.1 hnd).2
          have hidr := (List.nodup_cons.1 hnd).1
          apply ih _ _ e hndr
          have hcongr : (expList
              { c with
                ItemBuckets := c.ItemBuckets.set (it.ItemIndex % c.ItemBucketCount)
                  (removeFirst id (c.bucket (it.ItemIndex % c.ItemBucketCount)))
                ItemList := rest
                ItemCount := c.ItemCount - 1 }
              (MetaCacheDereferenceItem h id)) =
              rest.filterMap fun x =>
                (h.get x).map FSP_META_CACHE_ITEM.ExpirationTime := by
            show rest.filterMap _ = _
            exact List.filterMap_congr fun x hx => by
              rw [deref_get_ne h (fun he => hidr (by rw [← he]; exact hx))]
          rw [hcongr]
          have hs' : (expList c h).Sorted (· ≤ ·) := hs
          rw [expList, hl, List.filterMap_cons, hg] at hs'
          exact (List.sorted_cons.1 hs').2
        · rw [if_neg hexp]
          exact hs

theorem invalidateItem_sorted (c : FSP_META_CACHE) (h : Heap) (idx : Nat)
    (hnd : c.ItemList.Nodup) (hs : (expList c h).Sorted (· ≤ ·)) :
    (expList (MetaCacheInvalidateItem c h idx).1
      (MetaCacheInvalidateItem c h idx).2).Sorted (· ≤ ·) := by
  unfold MetaCacheInvalidateItem
  dsimp only
  cases hr : (chainRemove h idx (c.bucket (idx % c.ItemBucketCount))).1 with
  | none => exact hs
  | some id =>
    dsimp only
    show ((removeFirst id c.ItemList).filterMap fun x =>
      ((MetaCacheDereferenceItem h id).get x).map
        FSP_META_CACHE_ITEM.ExpirationTime).Sorted (· ≤ ·)
    rw [removeFirst_eq_erase]
    have hcongr : ((c.ItemList.erase id).filterMap fun x =>
        ((MetaCacheDereferenceItem h id).get x).map
          FSP_META_CACHE_ITEM.ExpirationTime) =
        (c.ItemList.erase id).filterMap fun x =>
          (h.get x).map FSP_META_CACHE_ITEM.ExpirationTime :=
      List.filterMap_congr fun x hx => by
        rw [deref_get_ne h (hnd.mem_erase_iff.1 hx).1]
    rw [hcongr]
    exact List.Pairwise.sublist
      (List.Sublist.filterMap _ (List.erase_sublist id c.ItemList)) hs

/-- Claim C6 (amended): provided the expiry computation does not wrap the
64-bit tick space — `now() + timeout < 2^64`, which monotone real ticks
give until the counter nears its maximum — each `MetaCacheAddItem` appends
to the tail an entry whose `ExpirationTime` is at least every expiration
time already in the list, so the list stays sorted by `ExpirationTime`
ascending, and the removal operations preserve that order. -/
theorem claim_C6_amended_list_sorted :
    (∀ (c : FSP_META_CACHE) (h : Heap) (now : Nat) (Buffer : List Nat)
      (Size : Nat) (itemAllocOk bufferAllocOk : Bool),
      (∀ id ∈ c.ItemList, id < h.next) →
      (expList c h).Sorted (· ≤ ·) →
      (∀ e ∈ expList c h, e ≤ now + c.MetaTimeout) →
      now + c.MetaTimeout < 2 ^ 64 →
      (expList
        (MetaCacheAddItem c h now Buffer Size itemAllocOk bufferAllocOk).2.1
        (MetaCacheAddItem c h now Buffer Size itemAllocOk
          bufferAllocOk).2.2).Sorted (· ≤ ·)) ∧
    (∀ (c : FSP_META_CACHE) (h : Heap) (idx : Nat), c.ItemList.Nodup →
      (expList c h).Sorted (· ≤ ·) →
      (expList (MetaCacheInvalidateItem c h idx).1
        (MetaCacheInvalidateItem c h idx).2).Sorted (· ≤ ·)) ∧
    (∀ (c : FSP_META_CACHE) (h : Heap) (e : Nat), c.ItemList.Nodup →
      (expList c h).Sorted (· ≤ ·) →
      (expList (MetaCacheInvalidateItems c h e).1
        (MetaCacheInvalidateItems c h e).2).Sorted (· ≤ ·)) := by
  refine ⟨?_, invalidateItem_sorted, fun c h e => sweepAux_sorted _ c h e⟩
  intro c h now Buffer Size itemAllocOk bufferAllocOk hlt hs hbound hnof
  by_cases hsz : ItemBufferHeaderSize + Size > c.ItemSizeMax
  · rw [MetaCacheAddItem_oversize c h now Buffer Size _ _ hsz]
    exact hs
  cases itemAllocOk with
  | false =>
    rw [MetaCacheAddItem_noitem c h now Buffer Size _ hsz]
    exact hs
  | true =>
    cases bufferAllocOk with
    | false =>
      rw [MetaCacheAddItem_nobuffer c h now Buffer Size hsz]
      exact hs
    | true =>
      by_cases hcap : c.ItemCount < c.MetaCapacity
      · rw [expList_add_success c h now Buffer Size hsz hcap hlt hnof]
        refine List.pairwise_append.2 ⟨hs, List.sorted_singleton _, ?_⟩
        intro a ha b hb
        rw [List.mem_singleton] at hb
        subst hb
        exact hbound a ha
      · rw [expList, MetaCacheAddItem_nocapacity_cache c h now Buffer Size hsz hcap,
          MetaCacheAddItem_nocapacity_heap c h now Buffer Size hsz hcap]
        have hcongr : (c.ItemList.filterMap fun x =>
            (((h.alloc (newItem c now Buffer Size 0)).2.free h.next).get x).map
              FSP_META_CACHE_ITEM.ExpirationTime) =
            c.ItemList.filterMap fun x =>
              (h.get x).map FSP_META_CACHE_ITEM.ExpirationTime :=
          List.filterMap_congr fun x hx => by
            rw [Heap.get_free_ne _ (Nat.ne_of_lt (hlt x hx)),
              Heap.get_alloc_ne h _ (Nat.ne_of_lt (hlt x hx))]
        rw [hcongr]
        exact hs

/-- Counterexample to C6 as stated: starting from a freshly created cache,
two inserts at the monotone 64-bit ticks `2^64 - 200` and `2^64 - 60` with
constant timeout `100` produce expiration times `2^64 - 100` and (wrapped
modulo `2^64`) `40`, so the insertion-ordered list is not sorted by
`ExpirationTime` ascending. -/
theorem claim_C6_counterexample :
    ¬ (expList
      (MetaCacheAddItem
        (MetaCacheAddItem (MetaCacheCreate 2 4096 100 1) ⟨0, []⟩
          (2 ^ 64 - 200) [1] 1 true true).2.1
        (MetaCacheAddItem (MetaCacheCreate 2 4096 100 1) ⟨0, []⟩
          (2 ^ 64 - 200) [1] 1 true true).2.2
        (2 ^ 64 - 60) [2] 1 true true).2.1
      (MetaCacheAddItem
        (MetaCacheAddItem (MetaCacheCreate 2 4096 100 1) ⟨0, []⟩
          (2 ^ 64 - 200) [1] 1 true true).2.1
        (MetaCacheAddItem (MetaCacheCreate 2 4096 100 1) ⟨0, []⟩
          (2 ^ 64 - 200) [1] 1 true true).2.2
        (2 ^ 64 - 60) [2] 1 true true).2.2).Sorted (· ≤ ·) := by
  decide

/-- Witness for the amended C6 at a concrete non-wrapping insertion. -/
theorem claim_C6_amended_list_sorted_witness :
    (expList
      (MetaCacheAddItem (MetaCacheCreate 2 4096 100 1) ⟨0, []⟩ 5 [1] 1 true
        true).2.1
      (MetaCacheAddItem (MetaCacheCreate 2 4096 100 1) ⟨0, []⟩ 5 [1] 1 true
        true).2.2).Sorted (· ≤ ·) :=
  claim_C6_amended_list_sorted.1 (MetaCacheCreate 2 4096 100 1) ⟨0, []⟩ 5 [1] 1
    true true
    (fun id hid => absurd hid (List.not_mem_nil id))
    List.sorted_nil
    (fun e he => absurd he (List.not_mem_nil e))
    (by decide)

end WinFspMetaCache
